import Mathlib

/-!
Shallow embedding of the AI-Chatbot backend (TypeScript) core:
the chat service (`chat.service.ts`), the memory service
(`memory.service.ts`) and the send-message controller
(`chat.controller.ts`), together with the Mongo collections they
mutate (conversations, messages) and the Pinecone vector index.

External capabilities (Gemini generator, embedder, Pinecone scoring)
are passed in as explicit oracle arguments; all repository logic is
translated directly from the source.
-/

namespace Chatbot

/-- Origin tag of a message: `user` (requester) or `model` (generator),
mirroring the `role` field of the Mongoose message schema. -/
inductive Role where
  | user
  | model
deriving DecidableEq, Repr

/-- One persisted message (a Turn).  The timestamp ordering of the store is
represented positionally: `DB.msgs` is kept in insertion order, which is
creation-timestamp order with ties broken by insertion. -/
structure Message where
  conversation : String
  role : Role
  content : String
deriving DecidableEq, Repr

/-- A conversation record, with the metadata fields the service mutates
(`messageCount`, `memoryStored`); from `conversation.model.ts`. -/
structure Conversation where
  id : String
  user : String
  messageCount : Nat
  memoryStored : Bool
deriving DecidableEq, Repr

/-- The MongoDB state seen by the chat service: the conversations
collection and the messages collection (insertion-ordered). -/
structure DB where
  convs : List Conversation
  msgs : List Message
deriving DecidableEq, Repr

/-- `Conversation.findOne({ _id: conversationId, user: userId })`. -/
def DB.findConv (db : DB) (conversationId userId : String) : Option Conversation :=
  db.convs.find? (fun c => c.id == conversationId && c.user == userId)

/-- `Conversation.findById(conversationId)`. -/
def DB.findConvById (db : DB) (conversationId : String) : Option Conversation :=
  db.convs.find? (fun c => c.id == conversationId)

/-- `Message.find({ conversation: conversationId }).sort({ timestamp: 1 })`:
all messages of a conversation, oldest first. -/
def DB.messagesOf (db : DB) (conversationId : String) : List Message :=
  db.msgs.filter (fun m => m.conversation == conversationId)

/-- `Conversation.findByIdAndUpdate(conversationId, ...)`: update every
conversation record matching the id. -/
def DB.updateConv (db : DB) (conversationId : String)
    (f : Conversation → Conversation) : DB :=
  { db with convs := db.convs.map (fun c => if c.id == conversationId then f c else c) }

/-- `Message.create(...)`: append a message to the store. -/
def DB.addMsg (db : DB) (m : Message) : DB :=
  { db with msgs := db.msgs ++ [m] }

-- ── Pinecone vector index model ─────────────────────────────

/-- One vector stored in Pinecone, with the metadata the memory service
attaches (`text`, `conversationId`, `userId`); the embedding itself is
irrelevant to the claims and is abstracted by the scoring oracle. -/
structure VectorRecord where
  id : String
  text : String
  conversationId : String
  userId : String
deriving DecidableEq, Repr

/-- The Pinecone index: a list of (namespace, record) pairs.
`index.namespace(ns).upsert` appends under `ns`; a query under `ns`
only ever sees pairs whose first component is `ns`. -/
abbrev VectorIndex := List (String × VectorRecord)

/-- Records visible to a query scoped to namespace `ns`. -/
def recordsIn (index : VectorIndex) (ns : String) : List VectorRecord :=
  (index.filter (fun e => e.1 == ns)).map Prod.snd

/-- Insert a record into a score-descending list (helper for the ranked
return order of a Pinecone query). -/
def insertDesc (score : VectorRecord → ℚ) (r : VectorRecord) :
    List VectorRecord → List VectorRecord
  | [] => [r]
  | x :: xs =>
    if score x ≤ score r then r :: x :: xs else x :: insertDesc score r xs

/-- Sort records by score, highest first (the ranked order in which
Pinecone returns matches). -/
def sortDesc (score : VectorRecord → ℚ) : List VectorRecord → List VectorRecord
  | [] => []
  | x :: xs => insertDesc score x (sortDesc score xs)

/-- The vector-index capability `query(namespace, vector, topK)`:
the top `topK` records of the namespace ranked by similarity score.
`score` is the similarity oracle (Pinecone may omit a score, hence
`Option`; ranking uses 0 for a missing score, as the service does). -/
def queryIndex (index : VectorIndex) (ns : String)
    (score : VectorRecord → Option ℚ) (topK : Nat) : List VectorRecord :=
  (sortDesc (fun r => (score r).getD 0) (recordsIn index ns)).take topK

-- ── Memory service (memory.service.ts) ──────────────────────

/-- Number of recent messages kept as direct context. -/
def SHORT_TERM_LIMIT : Nat := 20

/-- Number of memories retrieved from the vector index per query. -/
def MEMORY_SEARCH_LIMIT : Nat := 5

/-- Recursion core of the grouping loop, structurally recursive on a
fuel bound so that it reduces inside the kernel; `fuel` is at least the
number of loop iterations left. -/
def chunkGroupsAux : Nat → List Message → List (List Message)
  | 0, _ => []
  | _, [] => []
  | fuel + 1, m :: rest => (m :: rest).take 4 :: chunkGroupsAux fuel ((m :: rest).drop 4)

/-- The grouping loop of `archiveToLongTermMemory`:
`for (let i = 0; i < messagesToArchive.length; i += 4)` taking
`slice(i, i + 4)` each round, i.e. consecutive groups of 4. -/
def chunkGroups (l : List Message) : List (List Message) :=
  chunkGroupsAux l.length l

/-- Format one message as a line of an archive chunk:
`msg.role === "user" ? "User" : "AI"` followed by `": "` and the content. -/
def formatMsg (m : Message) : String :=
  (if m.role == Role.user then "User" else "AI") ++ ": " ++ m.content

/-- Flatten a group of 4 messages into one text block, joined by newlines. -/
def chunkText (group : List Message) : String :=
  String.intercalate "\n" (group.map formatMsg)

/-- `archiveToLongTermMemory(conversationId, userId)` from
`memory.service.ts`, with the fresh uuid slices supplied as the
`freshIds` oracle (one id per chunk, `uuidv4().slice(0, 8)`).
Returns the updated MongoDB state and the updated Pinecone index.
The catch-all error handler swallows failures leaving state as reached;
the success path modelled here is the one all claims are about. -/
def archiveToLongTermMemory (db : DB) (index : VectorIndex)
    (conversationId userId : String) (freshIds : List String) :
    DB × VectorIndex :=
  let allMessages := db.messagesOf conversationId
  if allMessages.length ≤ SHORT_TERM_LIMIT then (db, index)
  else
    let messagesToArchive := allMessages.take (allMessages.length - SHORT_TERM_LIMIT)
    match db.findConvById conversationId with
    | none => (db, index)
    | some _ =>
      let chunks := (chunkGroups messagesToArchive).map chunkText
      if chunks = [] then (db, index)
      else
        let vectors := chunks.enum.map (fun p =>
          ({ id := "memory_" ++ conversationId ++ "_" ++ (freshIds.getD p.1 ""),
             text := p.2, conversationId := conversationId, userId := userId } : VectorRecord))
        let index1 := index ++ vectors.map (fun v => ("user_" ++ userId, v))
        let db1 := db.updateConv conversationId (fun c => { c with memoryStored := true })
        (db1, index1)

/-- A retrieved fragment (`MemorySearchResult`). -/
structure MemorySearchResult where
  text : String
  score : ℚ
  conversationId : String
deriving DecidableEq, Repr

/-- `searchLongTermMemory(query, userId)`: embed the query, run a top-5
query against the namespace `user_${userId}`, keep matches whose score
(0 when missing) is at least 0.7, and map them to fragments.
`queryOk = false` models the catch path (embedding or index failure),
which returns the empty list. -/
def searchLongTermMemory (index : VectorIndex)
    (score : VectorRecord → Option ℚ) (queryOk : Bool) (userId : String) :
    List MemorySearchResult :=
  if queryOk then
    let searchMatches := queryIndex index ("user_" ++ userId) score MEMORY_SEARCH_LIMIT
    (searchMatches.filter (fun m => mkRat 7 10 ≤ (score m).getD 0)).map
      (fun m => { text := m.text, score := (score m).getD 0,
                  conversationId := m.conversationId })
  else []

/-- `getShortTermContext(conversationId)`: sort newest first, take 20,
reverse back to chronological order.  On the insertion-ordered store
the newest-first order is the reverse of `messagesOf`. -/
def getShortTermContext (db : DB) (conversationId : String) : List Message :=
  (((db.messagesOf conversationId).reverse).take SHORT_TERM_LIMIT).reverse

-- ── Chat service (chat.service.ts) ──────────────────────────

/-- The error message thrown when the conversation is missing or owned
by a different user — deliberately the same string in both cases. -/
def NOT_FOUND_MESSAGE : String := "Conversation not found"

/-- `getConversationById(conversationId, userId)`: a single
`findOne({ _id, user })`; throws `Conversation not found` otherwise. -/
def getConversationById (db : DB) (conversationId userId : String) :
    Except String Conversation :=
  match db.findConv conversationId userId with
  | none => .error NOT_FOUND_MESSAGE
  | some c => .ok c

/-- `deleteConversation(conversationId, userId)`: ownership check first,
then delete all messages of the conversation and the conversation itself.
Returns the outcome together with the updated store. -/
def deleteConversation (db : DB) (conversationId userId : String) :
    Except String Unit × DB :=
  match db.findConv conversationId userId with
  | none => (.error NOT_FOUND_MESSAGE, db)
  | some _ =>
    (.ok (),
      { convs := db.convs.filter (fun c => !(c.id == conversationId)),
        msgs := db.msgs.filter (fun m => !(m.conversation == conversationId)) })

/-- `getConversationMessages(conversationId, userId)`: ownership check
via `getConversationById`, then the messages oldest first. -/
def getConversationMessages (db : DB) (conversationId userId : String) :
    Except String (List Message) :=
  match db.findConv conversationId userId with
  | none => .error NOT_FOUND_MESSAGE
  | some _ => .ok (db.messagesOf conversationId)

/-- The fallback text persisted when Gemini returns no text:
`response.text || "I apologize, I could not generate a response."`. -/
def FALLBACK_RESPONSE : String := "I apologize, I could not generate a response."

/-- Result of one buffered `sendMessage` call: the thrown-or-returned
value, the MongoDB state it leaves behind, whether the Gemini generator
was invoked, and whether the background archival was triggered. -/
structure SendOutcome where
  result : Except String (Message × Message)
  db : DB
  genCalled : Bool
  archiveTriggered : Bool
deriving Repr

/-- `sendMessage(conversationId, userId, userMessage)` from
`chat.service.ts` (buffered mode).  The Gemini call is the oracle
`genResult`: `.error e` models a thrown generation (or context) failure,
`.ok t` a response whose `.text` field is `t` (`none` = absent).
Steps, in source order: ownership check, persist the user message,
build context (read-only), call Gemini, persist the AI message (with
the fallback when the text is falsy), update `messageCount` to the
value read at the start plus 2, and trigger background archival when
that total exceeds 20. -/
def sendMessage (db : DB) (conversationId userId userMessage : String)
    (genResult : Except String (Option String)) : SendOutcome :=
  match db.findConv conversationId userId with
  | none => ⟨.error NOT_FOUND_MESSAGE, db, false, false⟩
  | some conversation =>
    let userMsg : Message := ⟨conversationId, .user, userMessage⟩
    let db1 := db.addMsg userMsg
    match genResult with
    | .error e => ⟨.error e, db1, true, false⟩
    | .ok text =>
      let aiContent :=
        match text with
        | none => FALLBACK_RESPONSE
        | some t => if t = "" then FALLBACK_RESPONSE else t
      let aiMsg : Message := ⟨conversationId, .model, aiContent⟩
      let db2 := db1.addMsg aiMsg
      let db3 := db2.updateConv conversationId
        (fun c => { c with messageCount := conversation.messageCount + 2 })
      let totalMessages := conversation.messageCount + 2
      ⟨.ok (userMsg, aiMsg), db3, true, decide (totalMessages > 20)⟩

-- ── Streaming mode (sendMessageStream) ──────────────────────

/-- One server-sent event written to the response channel. -/
inductive SSEEvent where
  | chunk (content : String)
  | done (fullContent : String)
  | failed (message : String)
deriving DecidableEq, Repr

/-- Is this event terminal (`done` or `error`)? -/
def SSEEvent.isTerminal : SSEEvent → Bool
  | .chunk _ => false
  | .done _ => true
  | .failed _ => true

/-- Result of one `sendMessageStream` call: an error thrown before the
SSE headers were flushed (propagates to the controller as JSON), the
events written on the channel after the headers, whether `res.end()`
was reached, and the MongoDB state left behind. -/
structure StreamOutcome where
  preHeaderError : Option String
  events : List SSEEvent
  closed : Bool
  db : DB
deriving Repr

/-- `sendMessageStream(conversationId, userId, userMessage, res)` from
`chat.service.ts`.  Oracles: `streamChunks` are the `chunk.text` values
Gemini delivered (`none` = absent text, skipped by `if (text)`, as is
the empty string); `streamErr` models the stream call or iteration
throwing after those chunks; `saveErr` a failure of the
`Message.create` for the AI message; `updateErr` a failure of the
`findByIdAndUpdate` metadata update.  The `try` block forwards each
truthy chunk, persists the accumulated text, writes the `done` event,
then updates the metadata; the `catch` writes an `error` event; the
`finally` always closes the channel. -/
def sendMessageStream (db : DB) (conversationId userId userMessage : String)
    (streamChunks : List (Option String)) (streamErr : Option String)
    (saveErr : Option String) (updateErr : Option String) : StreamOutcome :=
  match db.findConv conversationId userId with
  | none => ⟨some NOT_FOUND_MESSAGE, [], false, db⟩
  | some conversation =>
    let userMsg : Message := ⟨conversationId, .user, userMessage⟩
    let db1 := db.addMsg userMsg
    -- SSE headers flushed here
    let texts := (streamChunks.filterMap id).filter (fun t => t ≠ "")
    let chunkEvents := texts.map SSEEvent.chunk
    let fullResponse := String.join texts
    match streamErr with
    | some e => ⟨none, chunkEvents ++ [.failed e], true, db1⟩
    | none =>
      match saveErr with
      | some e => ⟨none, chunkEvents ++ [.failed e], true, db1⟩
      | none =>
        let aiMsg : Message := ⟨conversationId, .model, fullResponse⟩
        let db2 := db1.addMsg aiMsg
        match updateErr with
        | some e => ⟨none, chunkEvents ++ [.done fullResponse, .failed e], true, db2⟩
        | none =>
          let db3 := db2.updateConv conversationId
            (fun c => { c with messageCount := conversation.messageCount + 2 })
          ⟨none, chunkEvents ++ [.done fullResponse], true, db3⟩

-- ── Send-message controller (chat.controller.ts) ────────────

/-- The whitespace class of JavaScript `String.prototype.trim`
(the characters relevant here: space, tab, newline, carriage return,
vertical tab, form feed). -/
def jsWhitespace (c : Char) : Bool :=
  c == ' ' || c == '\t' || c == '\n' || c == '\r' || c == '\x0b' || c == '\x0c'

/-- JavaScript `message.trim()`: strip leading and trailing whitespace. -/
def jsTrim (s : String) : String :=
  ⟨((s.data.dropWhile jsWhitespace).reverse.dropWhile jsWhitespace).reverse⟩

/-- Outcome of the HTTP handler: status code, response body message, the
MongoDB state, and whether the Gemini generator was invoked. -/
structure ControllerOutcome where
  status : Nat
  body : String
  db : DB
  genCalled : Bool
deriving DecidableEq, Repr

/-- The non-streaming branch of the `sendMessage` handler in
`chat.controller.ts`: reject when `!message || message.trim().length
=== 0` with a 400 before any service call; otherwise run the service
and map `Conversation not found` to 404, other errors to 500. -/
def sendMessageController (db : DB) (conversationId userId message : String)
    (genResult : Except String (Option String)) : ControllerOutcome :=
  if message = "" || (jsTrim message).length = 0 then
    ⟨400, "Message cannot be empty", db, false⟩
  else
    let o := sendMessage db conversationId userId message genResult
    match o.result with
    | .ok _ => ⟨200, "success", o.db, o.genCalled⟩
    | .error e => ⟨if e = NOT_FOUND_MESSAGE then 404 else 500, e, o.db, o.genCalled⟩

-- ── Specification predicates and concrete stores ────────────

/-- The spec invariant: the stored `messageCount` of every conversation
equals the number of persisted messages referencing it. -/
def turnCountInv (db : DB) : Prop :=
  ∀ c ∈ db.convs, c.messageCount = (db.messagesOf c.id).length

instance (db : DB) : Decidable (turnCountInv db) := by
  unfold turnCountInv; infer_instance

/-- The namespace invariant of the vector index: every stored record
lives in the namespace derived from its owning user. -/
def nsInv (index : VectorIndex) : Prop :=
  ∀ e ∈ index, e.1 = "user_" ++ e.2.userId

instance (index : VectorIndex) : Decidable (nsInv index) := by
  unfold nsInv; infer_instance

/-- An alternating user/model message history of length `n` for
conversation `"c"`. -/
def mkMsgs (n : Nat) : List Message :=
  (List.range n).map (fun i =>
    ⟨"c", if i % 2 = 0 then .user else .model, "m" ++ toString i⟩)

/-- A store holding one conversation `"c"` owned by `"u"` with `n`
persisted messages and a matching counter. -/
def dbWith (n : Nat) : DB :=
  ⟨[⟨"c", "u", n, false⟩], mkMsgs n⟩

-- ════════════════════════ Theorems ═════════════════════════

-- ── Helper lemmas on the chunk grouping ─────────────────────

/-- With enough fuel the grouping core produces `ceil(n / 4)` groups. -/
theorem chunkGroupsAux_length (fuel : Nat) :
    ∀ l : List Message, l.length ≤ fuel →
      (chunkGroupsAux fuel l).length = (l.length + 3) / 4 := by
  induction fuel with
  | zero =>
    intro l h
    have h0 : l.length = 0 := Nat.le_zero.mp h
    simp [chunkGroupsAux, h0]
  | succ fuel ih =>
    intro l h
    match l with
    | [] => simp [chunkGroupsAux]
    | m :: rest =>
      simp only [chunkGroupsAux, List.length_cons]
      rw [ih ((m :: rest).drop 4)
        (by simp only [List.length_drop, List.length_cons] at h ⊢; omega)]
      simp only [List.length_drop, List.length_cons]
      omega

/-- With enough fuel, flattening the groups recovers the list in order. -/
theorem chunkGroupsAux_flatten (fuel : Nat) :
    ∀ l : List Message, l.length ≤ fuel → (chunkGroupsAux fuel l).flatten = l := by
  induction fuel with
  | zero =>
    intro l h
    have h0 : l.length = 0 := Nat.le_zero.mp h
    rw [List.eq_nil_of_length_eq_zero h0]
    rfl
  | succ fuel ih =>
    intro l h
    match l with
    | [] => rfl
    | m :: rest =>
      simp only [chunkGroupsAux, List.flatten_cons]
      rw [ih ((m :: rest).drop 4)
        (by simp only [List.length_drop, List.length_cons] at h ⊢; omega)]
      exact List.take_append_drop 4 (m :: rest)

/-- With enough fuel every group is non-empty with at most 4 messages. -/
theorem chunkGroupsAux_mem (fuel : Nat) :
    ∀ l : List Message, ∀ g ∈ chunkGroupsAux fuel l, g ≠ [] ∧ g.length ≤ 4 := by
  induction fuel with
  | zero => intro l g hg; simp [chunkGroupsAux] at hg
  | succ fuel ih =>
    intro l g hg
    match l with
    | [] => cases hg
    | m :: rest =>
      simp only [chunkGroupsAux] at hg
      rcases List.mem_cons.mp hg with hg | hg
      · subst hg
        refine ⟨by simp [List.take_cons], ?_⟩
        simp [List.length_take]
      · exact ih ((m :: rest).drop 4) g hg

/-- The grouping loop produces `ceil(n / 4)` groups. -/
theorem chunkGroups_length (l : List Message) :
    (chunkGroups l).length = (l.length + 3) / 4 :=
  chunkGroupsAux_length l.length l le_rfl

/-- Flattening the groups recovers the original list in order. -/
theorem chunkGroups_flatten (l : List Message) :
    (chunkGroups l).flatten = l :=
  chunkGroupsAux_flatten l.length l le_rfl

/-- Every group is non-empty and holds at most 4 messages. -/
theorem chunkGroups_mem (l : List Message) :
    ∀ g ∈ chunkGroups l, g ≠ [] ∧ g.length ≤ 4 :=
  chunkGroupsAux_mem l.length l

-- ── C7: short-term window ───────────────────────────────────

/-- C7: `getShortTermContext` returns exactly the chronological suffix of
the persisted messages past the first `length - 20` ones, i.e. the most
recent 20 turns oldest-first; it never returns more than 20 turns, and
when 20 or fewer turns exist it returns all of them in order. -/
theorem getShortTermContext_window (db : DB) (conversationId : String) :
    getShortTermContext db conversationId =
      (db.messagesOf conversationId).drop
        ((db.messagesOf conversationId).length - SHORT_TERM_LIMIT) ∧
    (getShortTermContext db conversationId).length ≤ SHORT_TERM_LIMIT ∧
    (SHORT_TERM_LIMIT < (db.messagesOf conversationId).length →
      (getShortTermContext db conversationId).length = SHORT_TERM_LIMIT) ∧
    ((db.messagesOf conversationId).length ≤ SHORT_TERM_LIMIT →
      getShortTermContext db conversationId = db.messagesOf conversationId) := by
  have key : getShortTermContext db conversationId =
      (db.messagesOf conversationId).drop
        ((db.messagesOf conversationId).length - SHORT_TERM_LIMIT) := by
    unfold getShortTermContext
    rw [List.take_reverse, List.reverse_reverse]
  refine ⟨key, ?_, ?_, ?_⟩
  · rw [key, List.length_drop]; omega
  · intro h; rw [key, List.length_drop]; omega
  · intro h
    rw [key, Nat.sub_eq_zero_of_le h, List.drop_zero]

/-- C7 witness: a conversation with 5 persisted turns gets them all back
in chronological order. -/
theorem getShortTermContext_window_witness :
    getShortTermContext (dbWith 5) "c" = (dbWith 5).messagesOf "c" :=
  (getShortTermContext_window (dbWith 5) "c").2.2.2 (by decide)

-- ── C6: archival grouping ───────────────────────────────────

/-- C6: for a conversation with `T > 20` persisted turns the Archive
Engine upserts exactly `ceil((T - 20) / 4)` records; the groups cover
the eligible turns in original order, each group non-empty with at most
4 turns.  Concretely: 24 turns give one chunk of the first 4 turns in
order, 21 turns give one chunk of size 1, and 20 turns are a no-op. -/
theorem archive_grouping (db : DB) (index : VectorIndex) (cid uid : String)
    (ids : List String) (c : Conversation)
    (hT : SHORT_TERM_LIMIT < (db.messagesOf cid).length)
    (hconv : db.findConvById cid = some c) :
    (archiveToLongTermMemory db index cid uid ids).2.length =
      index.length + (((db.messagesOf cid).length - SHORT_TERM_LIMIT) + 3) / 4 ∧
    (let eligible := (db.messagesOf cid).take
        ((db.messagesOf cid).length - SHORT_TERM_LIMIT)
     (chunkGroups eligible).flatten = eligible ∧
     (chunkGroups eligible).length = (eligible.length + 3) / 4 ∧
     ∀ g ∈ chunkGroups eligible, g ≠ [] ∧ g.length ≤ 4) ∧
    (archiveToLongTermMemory (dbWith 24) [] "c" "u" ["aaaaaaaa"]).2.map
        (fun e => e.2.text) = ["User: m0\nAI: m1\nUser: m2\nAI: m3"] ∧
    (archiveToLongTermMemory (dbWith 21) [] "c" "u" ["aaaaaaaa"]).2.map
        (fun e => e.2.text) = ["User: m0"] ∧
    archiveToLongTermMemory (dbWith 20) [] "c" "u" ["aaaaaaaa"] =
      (dbWith 20, ([] : VectorIndex)) := by
  refine ⟨?_, ⟨chunkGroups_flatten _, chunkGroups_length _, chunkGroups_mem _⟩,
    by decide, by decide, by decide⟩
  unfold archiveToLongTermMemory
  rw [if_neg (by omega)]
  rw [hconv]
  simp only
  rw [if_neg ?hne]
  case hne =>
    intro h0
    have hlen := congrArg List.length h0
    simp only [List.length_map, chunkGroups_length, List.length_take, List.length_nil] at hlen
    omega
  simp only [List.length_append, List.length_map, List.enum_length, chunkGroups_length,
    List.length_take]
  omega

/-- C6 witness: on the 24-turn conversation the Archive Engine upserts
exactly one record (`ceil(4 / 4) = 1`). -/
theorem archive_grouping_witness :
    (archiveToLongTermMemory (dbWith 24) [] "c" "u" ["aaaaaaaa"]).2.length =
      ([] : VectorIndex).length +
        ((((dbWith 24).messagesOf "c").length - SHORT_TERM_LIMIT) + 3) / 4 :=
  (archive_grouping (dbWith 24) [] "c" "u" ["aaaaaaaa"] ⟨"c", "u", 24, false⟩
    (by decide) (by decide)).1

-- ── Helper lemmas on the ranked query ───────────────────────

/-- Inserting into the ranked list only adds the inserted record. -/
theorem mem_insertDesc (score : VectorRecord → ℚ) (r a : VectorRecord) :
    ∀ l : List VectorRecord, a ∈ insertDesc score r l → a = r ∨ a ∈ l := by
  intro l
  induction l with
  | nil => intro h; simpa [insertDesc] using h
  | cons x xs ih =>
    intro h
    simp only [insertDesc] at h
    split at h
    · rcases List.mem_cons.mp h with h | h
      · exact Or.inl h
      · exact Or.inr h
    · rcases List.mem_cons.mp h with h | h
      · exact Or.inr (h ▸ List.mem_cons_self x xs)
      · rcases ih h with h | h
        · exact Or.inl h
        · exact Or.inr (List.mem_cons_of_mem x h)

/-- Ranking the matches does not add records. -/
theorem mem_sortDesc (score : VectorRecord → ℚ) (a : VectorRecord) :
    ∀ l : List VectorRecord, a ∈ sortDesc score l → a ∈ l := by
  intro l
  induction l with
  | nil => intro h; simp [sortDesc] at h
  | cons x xs ih =>
    intro h
    simp only [sortDesc] at h
    rcases mem_insertDesc score x a (sortDesc score xs) h with h | h
    · exact h ▸ List.mem_cons_self x xs
    · exact List.mem_cons_of_mem x (ih h)

/-- Every record returned by the top-k query is stored in the queried
namespace of the index. -/
theorem mem_queryIndex (index : VectorIndex) (ns : String)
    (score : VectorRecord → Option ℚ) (topK : Nat) (r : VectorRecord)
    (h : r ∈ queryIndex index ns score topK) : (ns, r) ∈ index := by
  unfold queryIndex at h
  have h1 := mem_sortDesc _ r _ (List.mem_of_mem_take h)
  unfold recordsIn at h1
  rcases List.mem_map.mp h1 with ⟨e, he, rfl⟩
  have := (List.mem_filter.mp he).2
  have hns : e.1 = ns := by simpa using this
  have : e = (ns, e.2) := by
    cases e; simp only at hns; rw [hns]
  exact this ▸ (List.mem_filter.mp he).1

-- ── C4: retrieval bounds ────────────────────────────────────

/-- C4: for every index, scoring, failure mode and owner, the retrieval
result holds at most 5 fragments and every returned fragment has
relevance score at least 0.7; matches below the threshold are dropped. -/
theorem searchLongTermMemory_bounds (index : VectorIndex)
    (score : VectorRecord → Option ℚ) (queryOk : Bool) (userId : String) :
    (searchLongTermMemory index score queryOk userId).length ≤ MEMORY_SEARCH_LIMIT ∧
    ∀ frag ∈ searchLongTermMemory index score queryOk userId,
      mkRat 7 10 ≤ frag.score := by
  cases queryOk with
  | false => simp [searchLongTermMemory]
  | true =>
    constructor
    · simp only [searchLongTermMemory, if_pos, List.length_map]
      calc ((queryIndex index ("user_" ++ userId) score MEMORY_SEARCH_LIMIT).filter
              (fun m => mkRat 7 10 ≤ (score m).getD 0)).length
          ≤ (queryIndex index ("user_" ++ userId) score MEMORY_SEARCH_LIMIT).length :=
            List.length_filter_le _ _
        _ ≤ MEMORY_SEARCH_LIMIT := by
            simp [queryIndex, List.length_take]
    · intro frag hfrag
      simp only [searchLongTermMemory, if_pos] at hfrag
      rcases List.mem_map.mp hfrag with ⟨m, hm, rfl⟩
      have h2 := (List.mem_filter.mp hm).2
      simpa using h2

/-- C4 witness: on a two-record index with scores 0.9 and 0.3 the
retrieval returns at most five fragments and the returned fragment
scores at least 0.7. -/
theorem searchLongTermMemory_bounds_witness :
    (searchLongTermMemory
        [("user_A", ⟨"i1", "t1", "c", "A"⟩), ("user_A", ⟨"i2", "t2", "c", "A"⟩)]
        (fun r => if r.id = "i1" then some (mkRat 9 10) else some (mkRat 3 10))
        true "A").length ≤ MEMORY_SEARCH_LIMIT ∧
    mkRat 7 10 ≤ (MemorySearchResult.mk "t1" (mkRat 9 10) "c").score :=
  ⟨(searchLongTermMemory_bounds _ _ true "A").1,
   (searchLongTermMemory_bounds
      [("user_A", ⟨"i1", "t1", "c", "A"⟩), ("user_A", ⟨"i2", "t2", "c", "A"⟩)]
      (fun r => if r.id = "i1" then some (mkRat 9 10) else some (mkRat 3 10))
      true "A").2 ⟨"t1", mkRat 9 10, "c"⟩ (by decide)⟩

-- ── C3: namespace isolation ─────────────────────────────────

/-- The per-user namespace encoding is injective. -/
theorem userNamespace_inj (x y : String)
    (h : "user_" ++ x = "user_" ++ y) : x = y := by
  have hd := congrArg String.data h
  rw [String.data_append, String.data_append] at hd
  exact String.ext (List.append_cancel_left hd)

/-- Archival writes only into the namespace of the archiving owner, so
it preserves the namespace invariant of the index. -/
theorem nsInv_archiveToLongTermMemory (db : DB) (index : VectorIndex)
    (conversationId userId : String) (freshIds : List String)
    (h : nsInv index) :
    nsInv (archiveToLongTermMemory db index conversationId userId freshIds).2 := by
  unfold archiveToLongTermMemory
  dsimp only
  split
  · exact h
  · split
    · exact h
    · split
      · exact h
      · intro e he
        rcases List.mem_append.mp he with he | he
        · exact h e he
        · rcases List.mem_map.mp he with ⟨v, hv, rfl⟩
          rcases List.mem_map.mp hv with ⟨p, _, rfl⟩
          rfl

/-- C3: writes go to the owner's namespace only (the namespace invariant
is preserved by archival), and a retrieval issued for owner `A` only
ever surfaces records whose owning user is `A` — never one upserted for
a distinct owner `B`, regardless of scores. -/
theorem searchLongTermMemory_isolation (db : DB) (index : VectorIndex)
    (conversationId : String) (freshIds : List String)
    (score : VectorRecord → Option ℚ) (A B : String)
    (h : nsInv index) (hAB : A ≠ B) :
    nsInv (archiveToLongTermMemory db index conversationId A freshIds).2 ∧
    (∀ r ∈ queryIndex index ("user_" ++ A) score MEMORY_SEARCH_LIMIT,
      r.userId = A ∧ r.userId ≠ B) ∧
    (∀ frag ∈ searchLongTermMemory index score true A,
      ∃ r ∈ queryIndex index ("user_" ++ A) score MEMORY_SEARCH_LIMIT,
        frag.text = r.text ∧ r.userId = A ∧ r.userId ≠ B) := by
  have hquery : ∀ r ∈ queryIndex index ("user_" ++ A) score MEMORY_SEARCH_LIMIT,
      r.userId = A ∧ r.userId ≠ B := by
    intro r hr
    have hmem := mem_queryIndex index ("user_" ++ A) score MEMORY_SEARCH_LIMIT r hr
    have hns := h ("user_" ++ A, r) hmem
    have hA : r.userId = A := (userNamespace_inj A r.userId hns).symm
    exact ⟨hA, fun hB => hAB (hA ▸ hB ▸ rfl)⟩
  refine ⟨nsInv_archiveToLongTermMemory db index conversationId A freshIds h,
    hquery, ?_⟩
  intro frag hfrag
  simp only [searchLongTermMemory, if_pos] at hfrag
  rcases List.mem_map.mp hfrag with ⟨m, hm, rfl⟩
  have hmm := (List.mem_filter.mp hm).1
  exact ⟨m, hmm, rfl, hquery m hmm⟩

/-- C3 witness: with one record of owner `A` and one of owner `B` in the
index, a retrieval for `A` only surfaces `A`-owned records. -/
theorem searchLongTermMemory_isolation_witness :
    (MemorySearchResult.mk "tA" (mkRat 8 10) "c") ∈
      searchLongTermMemory
        [("user_A", ⟨"iA", "tA", "c", "A"⟩), ("user_B", ⟨"iB", "tB", "c", "B"⟩)]
        (fun r => if r.id = "iB" then some (mkRat 99 100) else some (mkRat 8 10))
        true "A" ∧
    ∃ r ∈ queryIndex
        [("user_A", ⟨"iA", "tA", "c", "A"⟩), ("user_B", ⟨"iB", "tB", "c", "B"⟩)]
        ("user_" ++ "A")
        (fun r => if r.id = "iB" then some (mkRat 99 100) else some (mkRat 8 10))
        MEMORY_SEARCH_LIMIT,
      (MemorySearchResult.mk "tA" (mkRat 8 10) "c").text = r.text ∧
        r.userId = "A" ∧ r.userId ≠ "B" :=
  ⟨by decide,
   (searchLongTermMemory_isolation (dbWith 0)
      [("user_A", ⟨"iA", "tA", "c", "A"⟩), ("user_B", ⟨"iB", "tB", "c", "B"⟩)]
      "c" [] (fun r => if r.id = "iB" then some (mkRat 99 100) else some (mkRat 8 10))
      "A" "B" (by decide) (by decide)).2.2
    ⟨"tA", mkRat 8 10, "c"⟩ (by decide)⟩

-- ── C1: re-archival is not idempotent ───────────────────────

/-- C1: on a conversation with 24 turns whose eligible window was
already archived once, a second invocation of the Archive Engine with
no new turns upserts one more record: the recomputed eligible window
re-selects the already-archived turns (the `memoryStored` flag set by
the first run is never consulted), duplicating the chunk text under a
fresh identifier.  The claim predicts zero new records. -/
theorem archive_rerun_duplicates :
    (archiveToLongTermMemory (dbWith 24) [] "c" "u" ["aaaaaaaa"]).2.length = 1 ∧
    (∀ c ∈ (archiveToLongTermMemory (dbWith 24) [] "c" "u" ["aaaaaaaa"]).1.convs,
      c.memoryStored = true) ∧
    (archiveToLongTermMemory
        (archiveToLongTermMemory (dbWith 24) [] "c" "u" ["aaaaaaaa"]).1
        (archiveToLongTermMemory (dbWith 24) [] "c" "u" ["aaaaaaaa"]).2
        "c" "u" ["bbbbbbbb"]).2.map (fun e => e.2.text) =
      ["User: m0\nAI: m1\nUser: m2\nAI: m3",
       "User: m0\nAI: m1\nUser: m2\nAI: m3"] ∧
    (archiveToLongTermMemory
        (archiveToLongTermMemory (dbWith 24) [] "c" "u" ["aaaaaaaa"]).1
        (archiveToLongTermMemory (dbWith 24) [] "c" "u" ["aaaaaaaa"]).2
        "c" "u" ["bbbbbbbb"]).2.map (fun e => e.2.id) =
      ["memory_c_aaaaaaaa", "memory_c_bbbbbbbb"] := by
  refine ⟨by decide, by decide, by decide, by decide⟩

-- ── C2: turn counter vs persisted turns ─────────────────────

/-- Appending a message extends exactly the filtered view of its own
conversation. -/
theorem messagesOf_addMsg (db : DB) (m : Message) (cid : String) :
    (db.addMsg m).messagesOf cid =
      db.messagesOf cid ++ if m.conversation == cid then [m] else [] := by
  simp only [DB.addMsg, DB.messagesOf, List.filter_append, List.filter_cons,
    List.filter_nil]

theorem messagesOf_updateConv (db : DB) (cid x : String)
    (f : Conversation → Conversation) :
    (db.updateConv cid f).messagesOf x = db.messagesOf x := rfl

/-- C2 counterexample: starting from a balanced store, a buffered
exchange whose Gemini call fails persists the inbound turn but leaves
the counter untouched, so the stored `messageCount` no longer equals
the number of persisted turns. -/
theorem sendMessage_genFailure_breaks_turnCount :
    turnCountInv (dbWith 0) ∧
    ¬ turnCountInv (sendMessage (dbWith 0) "c" "u" "hello" (.error "boom")).db ∧
    ((sendMessage (dbWith 0) "c" "u" "hello" (.error "boom")).db.messagesOf "c").length = 1 ∧
    (sendMessage (dbWith 0) "c" "u" "hello" (.error "boom")).db.convs =
      [⟨"c", "u", 0, false⟩] := by
  refine ⟨by decide, by decide, by decide, by decide⟩

/-- C2 amended: on every successful buffered exchange the invariant
`messageCount = number of persisted turns` is preserved, with both
sides growing by exactly 2; on the generator-failure path the inbound
turn alone is persisted and the counter is not updated (so the
invariant breaks there, counter = turns − 1). -/
theorem sendMessage_turnCount (db : DB) (cid uid msg : String)
    (genText : Option String) (conv : Conversation)
    (hfind : db.findConv cid uid = some conv) (hinv : turnCountInv db) :
    turnCountInv (sendMessage db cid uid msg (.ok genText)).db ∧
    ((sendMessage db cid uid msg (.ok genText)).db.messagesOf cid).length =
      (db.messagesOf cid).length + 2 ∧
    (∀ e : String,
      (sendMessage db cid uid msg (.error e)).db.msgs = db.msgs ++ [⟨cid, .user, msg⟩] ∧
      (sendMessage db cid uid msg (.error e)).db.convs = db.convs) := by
  have hmem : conv ∈ db.convs := List.mem_of_find?_eq_some hfind
  have hpred := List.find?_some hfind
  simp only [Bool.and_eq_true, beq_iff_eq] at hpred
  obtain ⟨hcid, -⟩ := hpred
  have hcount : conv.messageCount = (db.messagesOf cid).length := by
    rw [hinv conv hmem, hcid]
  simp only [sendMessage, hfind]
  refine ⟨?_, ?_, ?_⟩
  · intro c' hc'
    simp only [DB.updateConv, DB.addMsg, List.mem_map] at hc'
    obtain ⟨c, hc, rfl⟩ := hc'
    by_cases hcc : c.id = cid
    · simp only [hcc, beq_self_eq_true, if_pos]
      rw [messagesOf_updateConv, messagesOf_addMsg, messagesOf_addMsg]
      simp [hcount]
    · have hne : (c.id == cid) = false := by simp [hcc]
      simp only [hne, Bool.false_eq_true, if_neg, ite_false]
      rw [messagesOf_updateConv, messagesOf_addMsg, messagesOf_addMsg]
      have hx : cid ≠ c.id := fun h => hcc h.symm
      simp [hx]
      exact hinv c hc
  · rw [messagesOf_updateConv, messagesOf_addMsg, messagesOf_addMsg]
    simp
  · intro e
    simp [DB.addMsg]

/-- C2 witness: a successful exchange on the balanced one-conversation
store keeps the invariant and adds two turns. -/
theorem sendMessage_turnCount_witness :
    turnCountInv (sendMessage (dbWith 0) "c" "u" "hello" (.ok (some "hi"))).db ∧
    ((sendMessage (dbWith 0) "c" "u" "hello" (.ok (some "hi"))).db.messagesOf "c").length =
      (((dbWith 0)).messagesOf "c").length + 2 :=
  ⟨(sendMessage_turnCount (dbWith 0) "c" "u" "hello" (some "hi") ⟨"c", "u", 0, false⟩
      (by decide) (by decide)).1,
   (sendMessage_turnCount (dbWith 0) "c" "u" "hello" (some "hi") ⟨"c", "u", 0, false⟩
      (by decide) (by decide)).2.1⟩


-- ── C5: streaming terminal events ───────────────────────────

/-- Chunk events are never terminal. -/
theorem filter_isTerminal_chunks (ts : List String) :
    (ts.map SSEEvent.chunk).filter SSEEvent.isTerminal = [] := by
  induction ts with
  | nil => rfl
  | cons t ts ih => simp [SSEEvent.isTerminal, ih]

/-- C5 counterexample: when the metadata update fails after the done
event was already written, the channel carries both a done event and an
error event — two terminal events on one path after the SSE headers. -/
theorem sendMessageStream_done_then_error :
    (sendMessageStream (dbWith 0) "c" "u" "hi" [some "hi"] none none
        (some "db down")).events =
      [.chunk "hi", .done "hi", .failed "db down"] ∧
    ((sendMessageStream (dbWith 0) "c" "u" "hi" [some "hi"] none none
        (some "db down")).events.filter SSEEvent.isTerminal).length = 2 ∧
    (sendMessageStream (dbWith 0) "c" "u" "hi" [some "hi"] none none
        (some "db down")).closed = true := by
  refine ⟨by decide, by decide, by decide⟩

/-- C5 amended: after the SSE headers are sent the channel is always
closed, and exactly one terminal event is emitted on every path except
the one where the metadata update fails after the done event was
written — there a done and an error event are both emitted, and the
channel still closes. -/
theorem sendMessageStream_terminal (db : DB) (cid uid msg : String)
    (streamChunks : List (Option String))
    (streamErr saveErr updateErr : Option String)
    (conv : Conversation) (hfind : db.findConv cid uid = some conv) :
    (sendMessageStream db cid uid msg streamChunks streamErr saveErr
        updateErr).closed = true ∧
    (sendMessageStream db cid uid msg streamChunks streamErr saveErr
        updateErr).preHeaderError = none ∧
    ((sendMessageStream db cid uid msg streamChunks streamErr saveErr
        updateErr).events.filter SSEEvent.isTerminal).length =
      (if streamErr = none ∧ saveErr = none ∧ updateErr ≠ none then 2 else 1) := by
  cases streamErr with
  | some e =>
    simp [sendMessageStream, hfind, List.filter_append, filter_isTerminal_chunks,
      SSEEvent.isTerminal]
  | none =>
    cases saveErr with
    | some e =>
      simp [sendMessageStream, hfind, List.filter_append, filter_isTerminal_chunks,
        SSEEvent.isTerminal]
    | none =>
      cases updateErr with
      | some e =>
        simp [sendMessageStream, hfind, List.filter_append, filter_isTerminal_chunks,
          SSEEvent.isTerminal]
      | none =>
        simp [sendMessageStream, hfind, List.filter_append, filter_isTerminal_chunks,
          SSEEvent.isTerminal]

/-- C5 amended witness: a fully successful stream on the concrete store
closes the channel with exactly one terminal event. -/
theorem sendMessageStream_terminal_witness :
    (sendMessageStream (dbWith 0) "c" "u" "hi" [some "he", some "llo"] none none
        none).closed = true ∧
    (sendMessageStream (dbWith 0) "c" "u" "hi" [some "he", some "llo"] none none
        none).preHeaderError = none ∧
    ((sendMessageStream (dbWith 0) "c" "u" "hi" [some "he", some "llo"] none none
        none).events.filter SSEEvent.isTerminal).length =
      (if (none : Option String) = none ∧ (none : Option String) = none ∧
          (none : Option String) ≠ none then 2 else 1) :=
  sendMessageStream_terminal (dbWith 0) "c" "u" "hi" [some "he", some "llo"]
    none none none ⟨"c", "u", 0, false⟩ (by decide)

-- ── C8: blank-message validation ────────────────────────────

/-- C8: an inbound message consisting only of whitespace is rejected by
the controller with the validation failure, before any persistence and
without ever invoking the generator: the store is returned unchanged. -/
theorem sendMessageController_blank (db : DB) (cid uid message : String)
    (genResult : Except String (Option String))
    (h : ∀ ch ∈ message.data, jsWhitespace ch = true) :
    sendMessageController db cid uid message genResult =
      ⟨400, "Message cannot be empty", db, false⟩ := by
  have htrim : jsTrim message = "" := by
    unfold jsTrim
    rw [List.dropWhile_eq_nil_iff.mpr h]
    rfl
  simp [sendMessageController, htrim]

/-- C8 witness: sending three spaces is rejected with no side effects
and no generator call. -/
theorem sendMessageController_blank_witness :
    sendMessageController (dbWith 0) "c" "u" "   " (.ok (some "x")) =
      ⟨400, "Message cannot be empty", dbWith 0, false⟩ :=
  sendMessageController_blank (dbWith 0) "c" "u" "   " (.ok (some "x")) (by decide)

-- ── C9: ownership and existence conflated ───────────────────

/-- C9: whenever no conversation matches both the target id and the
requesting user — because the conversation does not exist or because it
belongs to someone else — every operation fails with the same
`Conversation not found` error and leaves the stores untouched; the
check precedes any persistence. -/
theorem ownership_notFound (db : DB) (cid uid msg : String)
    (genResult : Except String (Option String))
    (streamChunks : List (Option String))
    (streamErr saveErr updateErr : Option String)
    (h : ∀ c ∈ db.convs, ¬(c.id = cid ∧ c.user = uid)) :
    getConversationById db cid uid = .error NOT_FOUND_MESSAGE ∧
    getConversationMessages db cid uid = .error NOT_FOUND_MESSAGE ∧
    deleteConversation db cid uid = (.error NOT_FOUND_MESSAGE, db) ∧
    sendMessage db cid uid msg genResult =
      ⟨.error NOT_FOUND_MESSAGE, db, false, false⟩ ∧
    sendMessageStream db cid uid msg streamChunks streamErr saveErr updateErr =
      ⟨some NOT_FOUND_MESSAGE, [], false, db⟩ := by
  have hfind : db.findConv cid uid = none := by
    unfold DB.findConv
    rw [List.find?_eq_none]
    intro c hc hp
    simp only [Bool.and_eq_true, beq_iff_eq] at hp
    exact h c hc hp
  refine ⟨?_, ?_, ?_, ?_, ?_⟩ <;>
    simp [getConversationById, getConversationMessages, deleteConversation,
      sendMessage, sendMessageStream, hfind]

/-- C9 witness: a requester who does not own the conversation, and a
missing conversation id, both get the identical error with no change to
the store. -/
theorem ownership_notFound_witness :
    getConversationById ⟨[⟨"c", "A", 0, false⟩], []⟩ "c" "B" =
      .error NOT_FOUND_MESSAGE ∧
    sendMessage ⟨[⟨"c", "A", 0, false⟩], []⟩ "missing" "A" "hi" (.ok none) =
      ⟨.error NOT_FOUND_MESSAGE, ⟨[⟨"c", "A", 0, false⟩], []⟩, false, false⟩ :=
  ⟨(ownership_notFound ⟨[⟨"c", "A", 0, false⟩], []⟩ "c" "B" "hi" (.ok none)
      [] none none none (by decide)).1,
   (ownership_notFound ⟨[⟨"c", "A", 0, false⟩], []⟩ "missing" "A" "hi" (.ok none)
      [] none none none (by decide)).2.2.2.1⟩

-- ── C10: non-empty outbound turn with fallback ──────────────

/-- C10: in buffered mode the exchange succeeds for every generator
text, the persisted outbound turn is never empty, and whenever the
generator text is absent or empty the fixed fallback string is
persisted and returned as the outbound content. -/
theorem sendMessage_fallback (db : DB) (cid uid msg : String)
    (conv : Conversation) (hfind : db.findConv cid uid = some conv) :
    ∀ genText : Option String, ∃ u a : Message,
      (sendMessage db cid uid msg (.ok genText)).result = .ok (u, a) ∧
      a.content ≠ "" ∧ a.role = .model ∧
      ((genText = none ∨ genText = some "") → a.content = FALLBACK_RESPONSE) ∧
      a ∈ (sendMessage db cid uid msg (.ok genText)).db.msgs := by
  intro genText
  cases genText with
  | none =>
    refine ⟨⟨cid, .user, msg⟩, ⟨cid, .model, FALLBACK_RESPONSE⟩, ?_,
      by simp [FALLBACK_RESPONSE], rfl, fun _ => rfl, ?_⟩
    · simp [sendMessage, hfind]
    · simp [sendMessage, hfind, DB.addMsg, DB.updateConv]
  | some t =>
    by_cases ht : t = ""
    · refine ⟨⟨cid, .user, msg⟩, ⟨cid, .model, FALLBACK_RESPONSE⟩, ?_,
        by simp [FALLBACK_RESPONSE], rfl, fun _ => rfl, ?_⟩
      · simp [sendMessage, hfind, ht]
      · simp [sendMessage, hfind, ht, DB.addMsg, DB.updateConv]
    · refine ⟨⟨cid, .user, msg⟩, ⟨cid, .model, t⟩, ?_, ht, rfl, ?_, ?_⟩
      · simp [sendMessage, hfind, ht]
      · intro hg
        rcases hg with hg | hg
        · exact absurd hg (by simp)
        · rw [Option.some_inj] at hg
          exact absurd hg ht
      · simp [sendMessage, hfind, ht, DB.addMsg, DB.updateConv]

/-- C10 witness: with an absent generator text the outbound turn is the
fallback string and the exchange is reported successful. -/
theorem sendMessage_fallback_witness :
    ∃ u a : Message,
      (sendMessage (dbWith 0) "c" "u" "hi" (.ok none)).result = .ok (u, a) ∧
      a.content ≠ "" ∧ a.role = .model ∧
      (((none : Option String) = none ∨ (none : Option String) = some "") →
        a.content = FALLBACK_RESPONSE) ∧
      a ∈ (sendMessage (dbWith 0) "c" "u" "hi" (.ok none)).db.msgs :=
  sendMessage_fallback (dbWith 0) "c" "u" "hi" ⟨"c", "u", 0, false⟩ (by decide) none

end Chatbot
